import Mathlib

/-!
Verification of the rewrite engine of `CastCheck.cpp`
(clang-tidy check rewriting `obj.cast<T>()`-style member calls into
free-function form).

The engine is the pure string-level core of `CastCheck::check`
(lines 144-184 of the source) together with the three helpers
`maybePrefixed`, `transformObj`, `transformFunction` and `splitCall`
(lines 27-68).  Text is modelled as `List Char`; `llvm::StringRef`
operations are embedded one-to-one:

* `StringRef::trim()` (default char set " \t\n\v\f\r") as `trim`;
* `StringRef::consume_front(p)` as `consumeFront p s`;
* `StringRef::contains(sub)` as `containsB s sub`;
* `StringRef::rsplit(sep)` (split around the LAST occurrence of `sep`,
  returning `(s, "")` when `sep` does not occur) as `rsplit s sep`.

One modelling note on the engine input: `CastCheck::check` obtains the
call text with `Lexer::getSourceText(CharSourceRange::getCharRange(Range))`
where `Range` is the `CallExpr`'s source range.  A char range built this
way ends at the START of the last token, so the retrieved text of a call
`x.cast<Foo>()` is `x.cast<Foo>(` - the closing parenthesis is excluded
and re-appended by the engine itself in `dst = Function + Obj + ")"`
(line 182).  Concrete call sites below therefore enter the engine without
their final `)`.
-/

/-- Char list of a string literal (all source strings are ASCII). -/
def chars (s : String) : List Char := s.data

/-- The whitespace set of `StringRef::trim()`: " \t\n\v\f\r". -/
def isSpace (c : Char) : Bool :=
  c == ' ' || c == '\t' || c == '\n' || c == '\x0b' || c == '\x0c' || c == '\r'

/-- Drop leading whitespace (`StringRef::ltrim`). -/
def ltrim (s : List Char) : List Char := s.dropWhile isSpace

/-- Drop trailing whitespace (`StringRef::rtrim`). -/
def rtrim (s : List Char) : List Char := (s.reverse.dropWhile isSpace).reverse

/-- `StringRef::trim()`. -/
def trim (s : List Char) : List Char := rtrim (ltrim s)

/-- Boolean prefix test (`StringRef::starts_with`). -/
def isPrefixB : List Char → List Char → Bool
  | [], _ => true
  | _ :: _, [] => false
  | a :: p, b :: l => a == b && isPrefixB p l

/-- `StringRef::contains(sub)`: some suffix of `s` has `sub` as a prefix. -/
def containsB : List Char → List Char → Bool
  | [], sub => isPrefixB sub []
  | a :: t, sub => isPrefixB sub (a :: t) || containsB t sub

/-- `StringRef::consume_front(p)`: drop `p` if it is a prefix, else no-op. -/
def consumeFront (p s : List Char) : List Char :=
  if isPrefixB p s then s.drop p.length else s

/-- Whether `sep` occurs in `s` at position `i`. -/
def occursAt (sep s : List Char) (i : Nat) : Bool := isPrefixB sep (s.drop i)

/-- Position of the last occurrence of `sep` in `s` (meaningful only when
`occursAt` holds there, mirroring `StringRef::rfind`). -/
def lastOcc (s sep : List Char) : Nat :=
  Nat.findGreatest (fun i => occursAt sep s i = true) s.length

/-- `StringRef::rsplit(sep)`: split around the last occurrence of `sep`;
when `sep` does not occur the result is `(s, "")`. -/
def rsplit (s sep : List Char) : List Char × List Char :=
  if occursAt sep s (lastOcc s sep) then
    (s.take (lastOcc s sep), s.drop (lastOcc s sep + sep.length))
  else (s, [])

/-- Source lines 27-30: prepend the namespace qualifier. -/
def maybePrefixed (func : List Char) : List Char := chars "llvm::" ++ func

/-- Source lines 32-40 (`transformObj`): arrow calls get a dereferenced
receiver, except that an (untrimmed-to-)empty operation part appends
`*this` instead. -/
def transformObj (obj func : List Char) (isArrow : Bool) : List Char :=
  if isArrow then
    if (trim func).isEmpty then obj ++ chars "*this" else chars "*" ++ obj
  else obj

/-- Source lines 45-59: the branch structure of `transformFunction` after
the operation part has had a leading `template ` consumed and been
trimmed (lines 43-44). -/
def transformFunctionTrimmed (f : List Char) (isPointerUnion : Bool) : List Char :=
  if isPointerUnion && containsB f (chars "dyn_cast")
      && !containsB f (chars "dyn_cast_if_present") then
    maybePrefixed (chars "dyn_cast_if_present" ++ consumeFront (chars "dyn_cast") f)
  else if containsB f (chars "dyn_cast_or_null") then
    maybePrefixed (chars "dyn_cast_if_present" ++ consumeFront (chars "dyn_cast_or_null") f)
  else if (trim f).isEmpty then chars "llvm::"
  else maybePrefixed f

/-- Source lines 41-60 (`transformFunction`): normalize the operation part
(lines 43-44) and resolve the final free-function name (lines 45-59). -/
def transformFunction (func : List Char) (isPointerUnion : Bool) : List Char :=
  transformFunctionTrimmed (trim (consumeFront (chars "template ") func)) isPointerUnion

/-- Source lines 61-68 (`splitCall`): variadic `isa` calls (text containing
an ellipsis) split on the compound `.isa` / `->isa` token; all other calls
split on the last `.` / `->`. -/
def splitCall (call : List Char) (isArrow : Bool) : List Char × List Char :=
  if containsB call (chars "...") && containsB call (chars "isa") then
    ((if isArrow then rsplit call (chars "->isa") else rsplit call (chars ".isa")).1,
      chars "isa" ++
        (if isArrow then rsplit call (chars "->isa") else rsplit call (chars ".isa")).2)
  else if isArrow then rsplit call (chars "->") else rsplit call (chars ".")

/-- Source lines 156-183 (`CastCheck::check`, string-level core): split the
printable call text, transform receiver and operation, and compose the
replacement `dst = Function + Obj + ")"` (line 182). -/
def check (src : List Char) (isArrow isPointerUnion : Bool) : List Char :=
  transformFunction (splitCall src isArrow).2 isPointerUnion ++
    transformObj (splitCall src isArrow).1 (splitCall src isArrow).2 isArrow ++
    chars ")"

/-- A matched call site as handed to the engine: printable call text,
arrow-syntax flag, pointer-union-family flag. -/
def processCallSites (sites : List (List Char × Bool × Bool)) : List (List Char) :=
  sites.map (fun s => check s.1 s.2.1 s.2.2)

/-! Helper lemmas about the embedded string operations. -/

theorem isPrefixB_append_self (p r : List Char) : isPrefixB p (p ++ r) = true := by
  induction p with
  | nil => rfl
  | cons a t ih => simp [isPrefixB, ih]

theorem isPrefixB_trans (a b l : List Char) (hab : isPrefixB a b = true)
    (hbl : isPrefixB b l = true) : isPrefixB a l = true := by
  induction a generalizing b l with
  | nil => rfl
  | cons a0 a' ih =>
    cases b with
    | nil => simp [isPrefixB] at hab
    | cons b0 b' =>
      cases l with
      | nil => simp [isPrefixB] at hbl
      | cons l0 l' =>
        simp only [isPrefixB, Bool.and_eq_true, beq_iff_eq] at hab hbl ⊢
        exact ⟨hab.1.trans hbl.1, ih b' l' hab.2 hbl.2⟩

theorem containsB_of_drop (l sub : List Char) (j : Nat)
    (h : isPrefixB sub (l.drop j) = true) : containsB l sub = true := by
  induction l generalizing j with
  | nil =>
    cases sub with
    | nil => rfl
    | cons c t => simp [List.drop_nil, isPrefixB] at h
  | cons a t ih =>
    cases j with
    | zero =>
      simp only [List.drop_zero] at h
      simp [containsB, h]
    | succ j =>
      have := ih j (by simpa using h)
      simp [containsB, this]

theorem containsB_mono (l a b : List Char) (hab : isPrefixB a b = true)
    (h : containsB l b = true) : containsB l a = true := by
  induction l with
  | nil =>
    cases b with
    | nil =>
      cases a with
      | nil => rfl
      | cons c t => simp [isPrefixB] at hab
    | cons c t => simp [containsB, isPrefixB] at h
  | cons x t ih =>
    simp only [containsB, Bool.or_eq_true] at h ⊢
    rcases h with h | h
    · exact Or.inl (isPrefixB_trans a b (x :: t) hab h)
    · exact Or.inr (ih h)

theorem consumeFront_append (p r : List Char) : consumeFront p (p ++ r) = r := by
  simp [consumeFront, isPrefixB_append_self, List.drop_left]

theorem consumeFront_of_neg (p s : List Char) (h : isPrefixB p s = false) :
    consumeFront p s = s := by
  simp [consumeFront, h]

theorem dropWhile_append_not (p : Char → Bool) (xs ys : List Char) (c : Char)
    (hc : p c = false) : (xs ++ c :: ys).dropWhile p = xs.dropWhile p ++ c :: ys := by
  induction xs with
  | nil => simp [List.dropWhile_cons, hc]
  | cons x t ih =>
    cases hx : p x <;> simp [List.dropWhile_cons, hx, ih]

theorem dropWhile_nil_all (p : Char → Bool) (f : List Char)
    (h : f.dropWhile p = []) : ∀ c ∈ f, p c = true := by
  induction f with
  | nil => intro c hc; cases hc
  | cons x t ih =>
    cases hx : p x with
    | true =>
      intro c hc
      rcases List.mem_cons.mp hc with rfl | hc
      · exact hx
      · exact ih (by simpa [List.dropWhile_cons, hx] using h) c hc
    | false => simp [List.dropWhile_cons, hx] at h

theorem dropWhile_head_not (p : Char → Bool) (f : List Char) (c : Char)
    (t : List Char) (h : f.dropWhile p = c :: t) : p c = false := by
  induction f with
  | nil => simp at h
  | cons x xs ih =>
    cases hx : p x with
    | true => exact ih (by simpa [List.dropWhile_cons, hx] using h)
    | false =>
      simp only [List.dropWhile_cons, hx, if_neg] at h
      rw [show (if (false = true) then xs.dropWhile p else x :: xs) = x :: xs
        from if_neg (by simp)] at h
      cases h
      exact hx

theorem rtrim_append_last (a r : List Char) (c : Char) (rest : List Char)
    (ha : a.reverse = c :: rest) (hc : isSpace c = false) :
    rtrim (a ++ r) = a ++ rtrim r := by
  have h1 : (a ++ r).reverse = r.reverse ++ c :: rest := by
    rw [List.reverse_append, ha]
  have h2 : a = (c :: rest).reverse := by
    rw [← ha, List.reverse_reverse]
  simp only [rtrim, h1, dropWhile_append_not isSpace _ _ _ hc, List.reverse_append, ← h2]

theorem rtrim_cons_ne_nil (c : Char) (l : List Char) (hc : isSpace c = false) :
    rtrim (c :: l) ≠ [] := by
  intro h
  rw [rtrim, List.reverse_cons,
    show l.reverse ++ [c] = l.reverse ++ c :: [] from rfl,
    dropWhile_append_not isSpace _ _ _ hc] at h
  simp at h

theorem ltrim_cons_not (c : Char) (l : List Char) (hc : isSpace c = false) :
    ltrim (c :: l) = c :: l := by
  simp [ltrim, List.dropWhile_cons, hc]

theorem trim_lit_append (a r : List Char) (c : Char) (t1 : List Char)
    (h1 : a = c :: t1) (hc : isSpace c = false) (d : Char) (rest : List Char)
    (h2 : a.reverse = d :: rest) (hd : isSpace d = false) :
    trim (a ++ r) = a ++ rtrim r := by
  have hl : ltrim (a ++ r) = a ++ r := by
    rw [h1, List.cons_append, ltrim_cons_not _ _ hc]
  rw [trim, hl, rtrim_append_last a r d rest h2 hd]

theorem trim_nil_all_space (f : List Char) (h : trim f = []) :
    ∀ c ∈ f, isSpace c = true := by
  have hlt : ltrim f = [] := by
    cases hg : ltrim f with
    | nil => rfl
    | cons c t =>
      have hc : isSpace c = false := dropWhile_head_not isSpace f c t hg
      rw [trim, hg] at h
      exact absurd h (rtrim_cons_ne_nil c t hc)
  exact dropWhile_nil_all isSpace f hlt

theorem drop_length_add (l₁ l₂ : List Char) (n : Nat) :
    (l₁ ++ l₂).drop (l₁.length + n) = l₂.drop n := by
  induction l₁ with
  | nil => simp
  | cons a t ih =>
    simp only [List.cons_append, List.length_cons]
    rw [show t.length + 1 + n = (t.length + n) + 1 by omega, List.drop_succ_cons, ih]

/-! Characterization of `rsplit` at a designated last occurrence. -/

theorem occursAt_boundary (o sep f : List Char) :
    occursAt sep (o ++ (sep ++ f)) o.length = true := by
  simp [occursAt, List.drop_left, isPrefixB_append_self]

theorem lastOcc_boundary (o sep f : List Char)
    (hno : ∀ i, o.length < i → occursAt sep (o ++ (sep ++ f)) i = false) :
    lastOcc (o ++ (sep ++ f)) sep = o.length := by
  have hlen : o.length ≤ (o ++ (sep ++ f)).length := by
    rw [List.length_append]; omega
  have hocc := occursAt_boundary o sep f
  have hge : o.length ≤ lastOcc (o ++ (sep ++ f)) sep := by
    simp only [lastOcc]
    exact Nat.le_findGreatest hlen hocc
  rcases Nat.lt_or_ge o.length (lastOcc (o ++ (sep ++ f)) sep) with hlt | hle
  · have hspec : occursAt sep (o ++ (sep ++ f)) (lastOcc (o ++ (sep ++ f)) sep) = true := by
      simp only [lastOcc]
      exact @Nat.findGreatest_spec o.length
        (fun i => occursAt sep (o ++ (sep ++ f)) i = true) _
        (o ++ (sep ++ f)).length hlen hocc
    rw [hno _ hlt] at hspec
    cases hspec
  · omega

theorem rsplit_boundary (o sep f : List Char)
    (hno : ∀ i, o.length < i → occursAt sep (o ++ (sep ++ f)) i = false) :
    rsplit (o ++ (sep ++ f)) sep = (o, f) := by
  have hl := lastOcc_boundary o sep f hno
  have hocc := occursAt_boundary o sep f
  rw [rsplit, hl, if_pos hocc, List.take_left,
    drop_length_add o (sep ++ f) sep.length, List.drop_left]

theorem rsplit_dot (o f : List Char) (h : '.' ∉ f) :
    rsplit (o ++ '.' :: f) ['.'] = (o, f) := by
  have : o ++ '.' :: f = o ++ (['.'] ++ f) := rfl
  rw [this]
  apply rsplit_boundary
  intro i hi
  have hj : ∃ j, i = o.length + 1 + j := ⟨i - o.length - 1, by omega⟩
  rcases hj with ⟨j, rfl⟩
  have hdrop : (o ++ (['.'] ++ f)).drop (o.length + 1 + j) = f.drop j := by
    rw [show o.length + 1 + j = (o ++ ['.']).length + j by simp,
      show o ++ (['.'] ++ f) = (o ++ ['.']) ++ f by simp,
      drop_length_add]
  rw [occursAt, hdrop]
  cases he : f.drop j with
  | nil => rfl
  | cons c t =>
    simp only [isPrefixB, Bool.and_eq_true, beq_iff_eq]
    cases hc : ('.' == c) with
    | true =>
      have : c = '.' := by
        have := beq_iff_eq.mp hc
        exact this.symm
      subst this
      have : '.' ∈ f := List.mem_of_mem_drop (by rw [he]; exact List.mem_cons_self _ _)
      exact absurd this h
    | false => rfl

theorem rsplit_arrow_sep (o f : List Char) (h : containsB f (chars "->") = false) :
    rsplit (o ++ '-' :: '>' :: f) ['-', '>'] = (o, f) := by
  have : o ++ '-' :: '>' :: f = o ++ (['-', '>'] ++ f) := rfl
  rw [this]
  apply rsplit_boundary
  intro i hi
  have hj : ∃ j, i = o.length + 1 + j := ⟨i - o.length - 1, by omega⟩
  rcases hj with ⟨j, rfl⟩
  cases j with
  | zero =>
    have hdrop : (o ++ (['-', '>'] ++ f)).drop (o.length + 1 + 0) = '>' :: f := by
      rw [show o.length + 1 + 0 = o.length + 1 from rfl, drop_length_add o (['-', '>'] ++ f) 1]
      rfl
    rw [occursAt, hdrop]
    rfl
  | succ j =>
    have hdrop : (o ++ (['-', '>'] ++ f)).drop (o.length + 1 + (j + 1)) = f.drop j := by
      rw [show o.length + 1 + (j + 1) = o.length + (j + 2) by omega,
        drop_length_add o (['-', '>'] ++ f) (j + 2)]
      rfl
    rw [occursAt, hdrop]
    cases hocc : isPrefixB ['-', '>'] (f.drop j) with
    | true =>
      have := containsB_of_drop f ['-', '>'] j hocc
      rw [show chars "->" = ['-', '>'] from rfl] at h
      rw [this] at h
      cases h
    | false => rfl

theorem containsB_append_self (sub r : List Char) : containsB (sub ++ r) sub = true :=
  containsB_of_drop _ _ 0 (by simpa using isPrefixB_append_self sub r)

theorem transformFunctionTrimmed_default (f : List Char) (pu : Bool)
    (h1 : (pu && containsB f (chars "dyn_cast")
      && !containsB f (chars "dyn_cast_if_present")) = false)
    (h2 : containsB f (chars "dyn_cast_or_null") = false)
    (h3 : (trim f).isEmpty = false) :
    transformFunctionTrimmed f pu = maybePrefixed f := by
  simp [transformFunctionTrimmed, h1, h2, h3]

/-! Claim theorems. -/

/-- C8: for every matched call site where, after splitting and trimming, the
operation part is empty, the resolved operation name is exactly the namespace
qualifier `llvm::`, and when the call used arrow syntax the receiver text is
the split receiver with the self-reference sentinel `*this` appended rather
than `*` prefixed. -/
theorem c8_empty_operation (f o : List Char) (pu : Bool) (h : trim f = []) :
    transformFunction f pu = chars "llvm::" ∧
      transformObj o f true = o ++ chars "*this" := by
  have hall : ∀ c ∈ f, isSpace c = true := trim_nil_all_space f h
  have hpre : isPrefixB (chars "template ") f = false := by
    cases f with
    | nil => rfl
    | cons c t =>
      have hc : isSpace c = true := hall c (List.mem_cons_self c t)
      have hne : ('t' == c) = false := by
        cases heq : ('t' == c) with
        | true =>
          have ht : 't' = c := beq_iff_eq.mp heq
          rw [← ht] at hc
          simp [isSpace] at hc
        | false => rfl
      show isPrefixB ('t' :: chars "emplate ") (c :: t) = false
      simp [isPrefixB, hne]
  have hcf : consumeFront (chars "template ") f = f := consumeFront_of_neg _ _ hpre
  constructor
  · have e1 : containsB ([] : List Char) (chars "dyn_cast") = false := rfl
    have e2 : containsB ([] : List Char) (chars "dyn_cast_if_present") = false := rfl
    have e3 : containsB ([] : List Char) (chars "dyn_cast_or_null") = false := rfl
    have e4 : trim ([] : List Char) = [] := rfl
    simp only [transformFunction, hcf, h]
    simp [transformFunctionTrimmed, e1, e2, e3, e4]
  · simp [transformObj, h]

/-- C8 witness: instantiation at the all-blank operation part " ". -/
theorem c8_empty_operation_witness :
    trim (chars " ") = [] ∧
      (transformFunction (chars " ") false = chars "llvm::" ∧
        transformObj (chars "x") (chars " ") true = chars "x" ++ chars "*this") :=
  ⟨by decide, c8_empty_operation (chars " ") (chars "x") false (by decide)⟩

/-- C9: the rewrite engine is total: on any call text and flags it produces a
replacement, always of the shape `llvm::` ++ body ++ `)` - even when the split
token does not occur in the call text. -/
theorem c9_engine_total (call : List Char) (arrow pu : Bool) :
    ∃ t, check call arrow pu = chars "llvm::" ++ t ++ chars ")" := by
  obtain ⟨x, hx⟩ : ∃ x,
      transformFunction (splitCall call arrow).2 pu = chars "llvm::" ++ x := by
    simp only [transformFunction, transformFunctionTrimmed]
    split
    · exact ⟨_, rfl⟩
    · split
      · exact ⟨_, rfl⟩
      · split
        · exact ⟨[], by simp⟩
        · exact ⟨_, rfl⟩
  refine ⟨x ++ transformObj (splitCall call arrow).1 (splitCall call arrow).2 arrow, ?_⟩
  rw [check, hx]
  simp [List.append_assoc]

/-- C10: the engine is deterministic and stateless across call sites: the
output at any position of a processed batch depends only on the call site at
that position - two batches agreeing at position i produce the same
replacement at position i, whatever the other call sites are. -/
theorem c10_stateless (sites sites' : List (List Char × Bool × Bool)) (i : Nat)
    (h : i < sites.length) (h' : i < sites'.length)
    (heq : sites.get ⟨i, h⟩ = sites'.get ⟨i, h'⟩) :
    (processCallSites sites).get ⟨i, by simpa [processCallSites] using h⟩ =
      (processCallSites sites').get ⟨i, by simpa [processCallSites] using h'⟩ := by
  simp only [processCallSites, List.get_map]
  rw [heq]

/-- C10 witness: dropping a second call site does not change the replacement
produced for the first. -/
theorem c10_stateless_witness :
    ([(chars "x.cast<Foo>(", false, false), (chars "y->isa<T>(", true, false)].get
        ⟨0, by decide⟩ =
      [(chars "x.cast<Foo>(", false, false)].get ⟨0, by decide⟩) ∧
      (processCallSites
        [(chars "x.cast<Foo>(", false, false), (chars "y->isa<T>(", true, false)]).get
          ⟨0, by decide⟩ =
        (processCallSites [(chars "x.cast<Foo>(", false, false)]).get ⟨0, by decide⟩ :=
  ⟨rfl, c10_stateless _ _ 0 (by decide) (by decide) rfl⟩

/-- C1 counterexample: in the pointer-union family the operation
`dyn_cast_or_null` is NOT resolved to the permissive variant
`llvm::dyn_cast_if_present`: only the `dyn_cast` prefix is consumed, so the
resolved name is the garbled `llvm::dyn_cast_if_present_or_null`. -/
theorem c1_counterexample :
    check (chars "pu.dyn_cast_or_null<Foo>(") false true
        = chars "llvm::dyn_cast_if_present_or_null<Foo>(pu)" ∧
      check (chars "pu.dyn_cast_or_null<Foo>(") false true
        ≠ chars "llvm::dyn_cast_if_present<Foo>(pu)" := by decide

/-- C1 (amended): for pointer-union call sites whose operation part starts
with `dyn_cast` (and is not already the permissive variant), the `dyn_cast`
prefix is replaced by `dyn_cast_if_present` and the name is
namespace-qualified; in particular `pu.dyn_cast<Foo>()` yields
`llvm::dyn_cast_if_present<Foo>(pu)`. -/
theorem c1_pu_dyn_cast_renaming (rest : List Char) (h0 : rtrim rest = rest)
    (h1 : containsB (chars "dyn_cast" ++ rest) (chars "dyn_cast_if_present") = false) :
    transformFunction (chars "dyn_cast" ++ rest) true
        = chars "llvm::dyn_cast_if_present" ++ rest ∧
      check (chars "pu.dyn_cast<Foo>(") false true
        = chars "llvm::dyn_cast_if_present<Foo>(pu)" := by
  constructor
  · have hcf : consumeFront (chars "template ") (chars "dyn_cast" ++ rest)
        = chars "dyn_cast" ++ rest := consumeFront_of_neg _ _ rfl
    have htrim : trim (chars "dyn_cast" ++ rest) = chars "dyn_cast" ++ rtrim rest :=
      trim_lit_append (chars "dyn_cast") rest 'd' (chars "yn_cast") rfl (by decide)
        't' (chars "sac_nyd") rfl (by decide)
    have hc1 : containsB (chars "dyn_cast" ++ rest) (chars "dyn_cast") = true :=
      containsB_append_self (chars "dyn_cast") rest
    simp only [transformFunction, hcf, htrim, h0]
    simp only [transformFunctionTrimmed, hc1, h1, Bool.true_and, Bool.not_false,
      Bool.and_true]
    rw [if_pos trivial, consumeFront_append]
    rfl
  · decide

/-- C1 witness: instantiation of the amended claim at `dyn_cast<Foo>(`. -/
theorem c1_pu_dyn_cast_renaming_witness :
    (rtrim (chars "<Foo>(") = chars "<Foo>(" ∧
      containsB (chars "dyn_cast" ++ chars "<Foo>(")
        (chars "dyn_cast_if_present") = false) ∧
      (transformFunction (chars "dyn_cast" ++ chars "<Foo>(") true
          = chars "llvm::dyn_cast_if_present" ++ chars "<Foo>(" ∧
        check (chars "pu.dyn_cast<Foo>(") false true
          = chars "llvm::dyn_cast_if_present<Foo>(pu)") :=
  ⟨⟨by decide, by decide⟩,
    c1_pu_dyn_cast_renaming (chars "<Foo>(") (by decide) (by decide)⟩

/-- C5 counterexample: outside the pointer-union family the operation
`dyn_cast_or_null` does NOT resolve to itself: it is renamed to
`llvm::dyn_cast_if_present` (the original name does not survive). -/
theorem c5_counterexample :
    transformFunction (chars "dyn_cast_or_null<Foo>(") false
        = chars "llvm::dyn_cast_if_present<Foo>(" ∧
      transformFunction (chars "dyn_cast_or_null<Foo>(") false
        ≠ chars "llvm::dyn_cast_or_null<Foo>(" ∧
      containsB (transformFunction (chars "dyn_cast_or_null<Foo>(") false)
        (chars "dyn_cast_or_null") = false ∧
      check (chars "x.dyn_cast_or_null<Foo>(") false false
        = chars "llvm::dyn_cast_if_present<Foo>(x)" := by decide

/-- C5 (amended): outside the pointer-union family, `cast`, `isa` and
`dyn_cast` resolve to themselves (namespace-qualified with `llvm::`), but
`dyn_cast_or_null` does not: it is renamed to `llvm::dyn_cast_if_present`
even there, because the renaming branch for `dyn_cast_or_null` is not
guarded by the pointer-union flag. -/
theorem c5_non_pu_resolution (rest : List Char) (h0 : rtrim rest = rest)
    (h1 : containsB (chars "cast" ++ rest) (chars "dyn_cast_or_null") = false)
    (h2 : containsB (chars "isa" ++ rest) (chars "dyn_cast_or_null") = false)
    (h3 : containsB (chars "dyn_cast" ++ rest) (chars "dyn_cast_or_null") = false) :
    transformFunction (chars "cast" ++ rest) false = chars "llvm::cast" ++ rest ∧
      transformFunction (chars "isa" ++ rest) false = chars "llvm::isa" ++ rest ∧
      transformFunction (chars "dyn_cast" ++ rest) false
        = chars "llvm::dyn_cast" ++ rest ∧
      transformFunction (chars "dyn_cast_or_null" ++ rest) false
        = chars "llvm::dyn_cast_if_present" ++ rest := by
  refine ⟨?_, ?_, ?_, ?_⟩
  · have hcf : consumeFront (chars "template ") (chars "cast" ++ rest)
        = chars "cast" ++ rest := consumeFront_of_neg _ _ rfl
    have htrim : trim (chars "cast" ++ rest) = chars "cast" ++ rtrim rest :=
      trim_lit_append (chars "cast") rest 'c' (chars "ast") rfl (by decide)
        't' (chars "sac") rfl (by decide)
    simp only [transformFunction, hcf, htrim, h0]
    rw [transformFunctionTrimmed_default (chars "cast" ++ rest) false (by simp) h1
      (by rw [htrim, h0]; rfl)]
    rfl
  · have hcf : consumeFront (chars "template ") (chars "isa" ++ rest)
        = chars "isa" ++ rest := consumeFront_of_neg _ _ rfl
    have htrim : trim (chars "isa" ++ rest) = chars "isa" ++ rtrim rest :=
      trim_lit_append (chars "isa") rest 'i' (chars "sa") rfl (by decide)
        'a' (chars "si") rfl (by decide)
    simp only [transformFunction, hcf, htrim, h0]
    rw [transformFunctionTrimmed_default (chars "isa" ++ rest) false (by simp) h2
      (by rw [htrim, h0]; rfl)]
    rfl
  · have hcf : consumeFront (chars "template ") (chars "dyn_cast" ++ rest)
        = chars "dyn_cast" ++ rest := consumeFront_of_neg _ _ rfl
    have htrim : trim (chars "dyn_cast" ++ rest) = chars "dyn_cast" ++ rtrim rest :=
      trim_lit_append (chars "dyn_cast") rest 'd' (chars "yn_cast") rfl (by decide)
        't' (chars "sac_nyd") rfl (by decide)
    simp only [transformFunction, hcf, htrim, h0]
    rw [transformFunctionTrimmed_default (chars "dyn_cast" ++ rest) false (by simp) h3
      (by rw [htrim, h0]; rfl)]
    rfl
  · have hcf : consumeFront (chars "template ") (chars "dyn_cast_or_null" ++ rest)
        = chars "dyn_cast_or_null" ++ rest := consumeFront_of_neg _ _ rfl
    have htrim : trim (chars "dyn_cast_or_null" ++ rest)
        = chars "dyn_cast_or_null" ++ rtrim rest :=
      trim_lit_append (chars "dyn_cast_or_null") rest 'd' (chars "yn_cast_or_null")
        rfl (by decide) 'l' (chars "lun_ro_tsac_nyd") rfl (by decide)
    have hb1 : (false && containsB (chars "dyn_cast_or_null" ++ rest) (chars "dyn_cast")
        && !containsB (chars "dyn_cast_or_null" ++ rest) (chars "dyn_cast_if_present"))
        = false := by simp
    have hb2 : containsB (chars "dyn_cast_or_null" ++ rest)
        (chars "dyn_cast_or_null") = true :=
      containsB_append_self (chars "dyn_cast_or_null") rest
    simp only [transformFunction, hcf, htrim, h0]
    simp only [transformFunctionTrimmed, hb1, hb2]
    rw [if_pos trivial, consumeFront_append]
    rfl

/-- C5 witness: instantiation of the amended claim at template-argument
suffix `<Foo>(`. -/
theorem c5_non_pu_resolution_witness :
    (rtrim (chars "<Foo>(") = chars "<Foo>(" ∧
      containsB (chars "cast" ++ chars "<Foo>(") (chars "dyn_cast_or_null") = false ∧
      containsB (chars "isa" ++ chars "<Foo>(") (chars "dyn_cast_or_null") = false ∧
      containsB (chars "dyn_cast" ++ chars "<Foo>(")
        (chars "dyn_cast_or_null") = false) ∧
      (transformFunction (chars "cast" ++ chars "<Foo>(") false
          = chars "llvm::cast" ++ chars "<Foo>(" ∧
        transformFunction (chars "isa" ++ chars "<Foo>(") false
          = chars "llvm::isa" ++ chars "<Foo>(" ∧
        transformFunction (chars "dyn_cast" ++ chars "<Foo>(") false
          = chars "llvm::dyn_cast" ++ chars "<Foo>(" ∧
        transformFunction (chars "dyn_cast_or_null" ++ chars "<Foo>(") false
          = chars "llvm::dyn_cast_if_present" ++ chars "<Foo>(") :=
  ⟨⟨by decide, by decide, by decide, by decide⟩,
    c5_non_pu_resolution (chars "<Foo>(") (by decide) (by decide) (by decide)
      (by decide)⟩

/-- C3 counterexample: `x.cast<Foo>()` is NOT rewritten to `cast<Foo>(x)`:
the resolved name is namespace-qualified, so the replacement is
`llvm::cast<Foo>(x)`. -/
theorem c3_counterexample :
    check (chars "x.cast<Foo>(") false false ≠ chars "cast<Foo>(x)" := by decide

/-- C3 (amended): for direct (dot) call sites of fixed arity (no ellipsis in
the call text), the replacement is the resolved operation text followed by
exactly the text preceding the last dot and a closing parenthesis; in
particular `x.cast<Foo>()` yields `llvm::cast<Foo>(x)`. -/
theorem c3_dot_receiver (o f : List Char) (pu : Bool)
    (h1 : containsB (o ++ '.' :: f) (chars "...") = false)
    (h2 : '.' ∉ f) :
    check (o ++ '.' :: f) false pu = transformFunction f pu ++ o ++ chars ")" ∧
      check (chars "x.cast<Foo>(") false false = chars "llvm::cast<Foo>(x)" := by
  refine ⟨?_, by decide⟩
  have hsplit : splitCall (o ++ '.' :: f) false = (o, f) := by
    simp only [splitCall, h1, Bool.false_and]
    simp only [Bool.false_eq_true, if_false]
    exact rsplit_dot o f h2
  simp only [check, hsplit]
  rfl

/-- C3 witness: instantiation of the amended claim at `x.cast<Foo>(`. -/
theorem c3_dot_receiver_witness :
    (containsB (chars "x" ++ '.' :: chars "cast<Foo>(") (chars "...") = false ∧
      '.' ∉ chars "cast<Foo>(") ∧
      (check (chars "x" ++ '.' :: chars "cast<Foo>(") false false
          = transformFunction (chars "cast<Foo>(") false ++ chars "x" ++ chars ")" ∧
        check (chars "x.cast<Foo>(") false false = chars "llvm::cast<Foo>(x)") :=
  ⟨⟨by decide, by decide⟩,
    c3_dot_receiver (chars "x") (chars "cast<Foo>(") false (by decide) (by decide)⟩

/-- C4 counterexample: `x->isa<Foo>()` is NOT rewritten to `isa<Foo>(*x)`:
the resolved name is namespace-qualified, so the replacement is
`llvm::isa<Foo>(*x)`. -/
theorem c4_counterexample :
    check (chars "x->isa<Foo>(") true false = chars "llvm::isa<Foo>(*x)" ∧
      chars "llvm::isa<Foo>(*x)" ≠ chars "isa<Foo>(*x)" := by decide

/-- C4 (amended): for arrow call sites that do not take the variadic-isa
path (no ellipsis in the call text) and whose operation part does not trim
to empty, the produced receiver text is `*` concatenated with the text
preceding the last arrow; in particular `x->isa<Foo>()` yields
`llvm::isa<Foo>(*x)`. -/
theorem c4_arrow_receiver (o f : List Char) (pu : Bool)
    (h1 : containsB (o ++ '-' :: '>' :: f) (chars "...") = false)
    (h2 : containsB f (chars "->") = false)
    (h3 : trim f ≠ []) :
    check (o ++ '-' :: '>' :: f) true pu
        = transformFunction f pu ++ (chars "*" ++ o) ++ chars ")" ∧
      transformObj o f true = chars "*" ++ o ∧
      check (chars "x->isa<Foo>(") true false = chars "llvm::isa<Foo>(*x)" := by
  have hne : (trim f).isEmpty = false := by
    cases ht : trim f with
    | nil => exact absurd ht h3
    | cons c t => rfl
  have hobj : transformObj o f true = chars "*" ++ o := by
    simp [transformObj, hne]
  refine ⟨?_, hobj, by decide⟩
  have hsplit : splitCall (o ++ '-' :: '>' :: f) true = (o, f) := by
    simp only [splitCall, h1, Bool.false_and]
    simp only [Bool.false_eq_true, if_false]
    exact rsplit_arrow_sep o f h2
  simp only [check, hsplit]
  rw [hobj]

/-- C4 witness: instantiation of the amended claim at `x->isa<Foo>(`. -/
theorem c4_arrow_receiver_witness :
    (containsB (chars "x" ++ '-' :: '>' :: chars "isa<Foo>(") (chars "...") = false ∧
      containsB (chars "isa<Foo>(") (chars "->") = false ∧
      trim (chars "isa<Foo>(") ≠ []) ∧
      (check (chars "x" ++ '-' :: '>' :: chars "isa<Foo>(") true false
          = transformFunction (chars "isa<Foo>(") false ++
            (chars "*" ++ chars "x") ++ chars ")" ∧
        transformObj (chars "x") (chars "isa<Foo>(") true = chars "*" ++ chars "x" ∧
        check (chars "x->isa<Foo>(") true false = chars "llvm::isa<Foo>(*x)") :=
  ⟨⟨by decide, by decide, by decide⟩,
    c4_arrow_receiver (chars "x") (chars "isa<Foo>(") false (by decide) (by decide)
      (by decide)⟩

/-- C2 counterexample: the variadic dot-syntax call site
`x.template isa<Foo, Bar, Baz>()` does not produce `isa<Foo, Bar, Baz>(x)`:
the produced replacement carries the `llvm::` qualifier, and the split does
not occur at a compound `.isa` token (the call text contains no ellipsis, so
the engine splits at the plain last dot). -/
theorem c2_counterexample :
    check (chars "x.template isa<Foo, Bar, Baz>(") false false
      ≠ chars "isa<Foo, Bar, Baz>(x)" := by decide

/-- C2 (amended): `x.template isa<Foo, Bar, Baz>()` produces
`llvm::isa<Foo, Bar, Baz>(x)`; the `template` keyword is removed by the name
normalization, and the split occurs at the plain last dot (which is the
member-access dot: the template-argument list contains no dot, and the
compound-token path is not taken since the call text has no ellipsis
marker). -/
theorem c2_template_variadic :
    check (chars "x.template isa<Foo, Bar, Baz>(") false false
        = chars "llvm::isa<Foo, Bar, Baz>(x)" ∧
      splitCall (chars "x.template isa<Foo, Bar, Baz>(") false
        = (chars "x", chars "template isa<Foo, Bar, Baz>(") ∧
      containsB (chars "x.template isa<Foo, Bar, Baz>(") (chars "...") = false := by
  decide

/-- C6 counterexample: on the variadic call `x.isa<Ts...>()` the split does
occur at the compound `.isa` token, but the resolved operation name in the
replacement is `llvm::isa<Ts...>(`, which does not start with `isa`. -/
theorem c6_counterexample :
    transformFunction (splitCall (chars "x.isa<Ts...>(") false).2 false
        = chars "llvm::isa<Ts...>(" ∧
      isPrefixB (chars "isa")
        (transformFunction (splitCall (chars "x.isa<Ts...>(") false).2 false)
        = false := by decide

/-- C6 (amended): for every call site whose text contains an ellipsis marker
and the substring `isa`, the split is the compound `.isa` / `->isa` split
(the operation part is `isa` prepended to the tail of that split, not the
plain last-dot/arrow split), and - provided the trimmed operation part does
not contain `dyn_cast` - the resolved name starts with `llvm::isa` (the
namespace-qualified form, not bare `isa`). -/
theorem c6_variadic_isa (call : List Char) (arrow pu : Bool)
    (h1 : containsB call (chars "...") = true)
    (h2 : containsB call (chars "isa") = true)
    (h3 : containsB (trim (splitCall call arrow).2) (chars "dyn_cast") = false) :
    splitCall call arrow
        = ((if arrow then rsplit call (chars "->isa") else rsplit call (chars ".isa")).1,
          chars "isa" ++
            (if arrow then rsplit call (chars "->isa") else rsplit call (chars ".isa")).2) ∧
      isPrefixB (chars "isa") (splitCall call arrow).2 = true ∧
      isPrefixB (chars "llvm::isa")
        (transformFunction (splitCall call arrow).2 pu) = true := by
  have hsplit : splitCall call arrow
      = ((if arrow then rsplit call (chars "->isa") else rsplit call (chars ".isa")).1,
        chars "isa" ++
          (if arrow then rsplit call (chars "->isa") else rsplit call (chars ".isa")).2) := by
    simp [splitCall, h1, h2]
  refine ⟨hsplit, ?_, ?_⟩
  · rw [hsplit]
    exact isPrefixB_append_self (chars "isa") _
  · rw [hsplit] at h3 ⊢
    generalize (if arrow then rsplit call (chars "->isa")
      else rsplit call (chars ".isa")).2 = r at h3 ⊢
    have hcf : consumeFront (chars "template ") (chars "isa" ++ r)
        = chars "isa" ++ r := consumeFront_of_neg _ _ rfl
    have htrim : trim (chars "isa" ++ r) = chars "isa" ++ rtrim r :=
      trim_lit_append (chars "isa") r 'i' (chars "sa") rfl (by decide)
        'a' (chars "si") rfl (by decide)
    have h3' : containsB (chars "isa" ++ rtrim r) (chars "dyn_cast") = false := by
      rw [← htrim]
      simpa using h3
    have hb1 : (pu && containsB (chars "isa" ++ rtrim r) (chars "dyn_cast")
        && !containsB (chars "isa" ++ rtrim r) (chars "dyn_cast_if_present"))
        = false := by
      rw [h3']
      simp
    have hb2 : containsB (chars "isa" ++ rtrim r) (chars "dyn_cast_or_null") = false := by
      cases hcc : containsB (chars "isa" ++ rtrim r) (chars "dyn_cast_or_null") with
      | false => rfl
      | true =>
        have hmm := containsB_mono _ (chars "dyn_cast") (chars "dyn_cast_or_null")
          rfl hcc
        rw [h3'] at hmm
        cases hmm
      
    have hb3 : (trim (chars "isa" ++ rtrim r)).isEmpty = false := by
      rw [trim_lit_append (chars "isa") (rtrim r) 'i' (chars "sa") rfl (by decide)
        'a' (chars "si") rfl (by decide)]
      rfl
    simp only [transformFunction, hcf, htrim]
    simp only [transformFunctionTrimmed, hb1, hb2, hb3]
    simp only [Bool.false_eq_true, if_false]
    show isPrefixB (chars "llvm::isa") (chars "llvm::isa" ++ rtrim r) = true
    exact isPrefixB_append_self (chars "llvm::isa") (rtrim r)

/-- C6 witness: instantiation of the amended claim on `x.isa<Ts...>(`. -/
theorem c6_variadic_isa_witness :
    (containsB (chars "x.isa<Ts...>(") (chars "...") = true ∧
      containsB (chars "x.isa<Ts...>(") (chars "isa") = true ∧
      containsB (trim (splitCall (chars "x.isa<Ts...>(") false).2)
        (chars "dyn_cast") = false) ∧
      (splitCall (chars "x.isa<Ts...>(") false
          = ((rsplit (chars "x.isa<Ts...>(") (chars ".isa")).1,
            chars "isa" ++ (rsplit (chars "x.isa<Ts...>(") (chars ".isa")).2) ∧
        isPrefixB (chars "isa") (splitCall (chars "x.isa<Ts...>(") false).2 = true ∧
        isPrefixB (chars "llvm::isa")
          (transformFunction (splitCall (chars "x.isa<Ts...>(") false).2 false)
          = true) :=
  ⟨⟨by decide, by decide, by decide⟩,
    c6_variadic_isa (chars "x.isa<Ts...>(") false false (by decide) (by decide)
      (by decide)⟩

/-- C7 counterexample: template-keyword invariance fails on variadic isa
call sites. `x.template isa<Ts...>()` and its keyword-free twin
`x.isa<Ts...>()` produce different output: the call text contains an
ellipsis, so splitting happens on the compound `.isa` token BEFORE the
keyword is stripped, and the keyword hides that token in the first call. -/
theorem c7_counterexample :
    check (chars "x.template isa<Ts...>(") false false
        = chars "llvm::isax.template isa<Ts...>()" ∧
      check (chars "x.isa<Ts...>(") false false = chars "llvm::isa<Ts...>(x)" ∧
      check (chars "x.template isa<Ts...>(") false false
        ≠ check (chars "x.isa<Ts...>(") false false := by decide

/-- C7 (amended): whenever two call sites split to the same receiver with
operation parts `template f` and `f` respectively (which is the case for
plain non-ellipsis calls), where `f` does not itself start with the keyword
and does not trim to blank, the engine produces identical output for both. -/
theorem c7_template_invariance (c1 c2 o f : List Char) (arrow pu : Bool)
    (h1 : splitCall c1 arrow = (o, chars "template " ++ f))
    (h2 : splitCall c2 arrow = (o, f))
    (h3 : isPrefixB (chars "template ") f = false)
    (h4 : trim f ≠ []) :
    check c1 arrow pu = check c2 arrow pu := by
  have htf : transformFunction (chars "template " ++ f) pu = transformFunction f pu := by
    simp only [transformFunction, consumeFront_append, consumeFront_of_neg _ _ h3]
  have hne1 : (trim f).isEmpty = false := by
    cases ht : trim f with
    | nil => exact absurd ht h4
    | cons c t => rfl
  have hne2 : (trim (chars "template " ++ f)).isEmpty = false := by
    have hl : ltrim (chars "template " ++ f) = chars "template " ++ f := by
      show ltrim ('t' :: (chars "emplate " ++ f)) = 't' :: (chars "emplate " ++ f)
      exact ltrim_cons_not 't' _ (by decide)
    rw [trim, hl]
    cases hr : rtrim (chars "template " ++ f) with
    | nil =>
      have : rtrim ('t' :: (chars "emplate " ++ f)) ≠ [] :=
        rtrim_cons_ne_nil 't' _ (by decide)
      exact absurd hr this
    | cons c t => rfl
  have hobj : transformObj o (chars "template " ++ f) arrow = transformObj o f arrow := by
    cases arrow with
    | false => rfl
    | true => simp [transformObj, hne1, hne2]
  simp only [check, h1, h2]
  rw [htf, hobj]

/-- C7 witness: instantiation at `x.template cast<T>(` versus `x.cast<T>(`. -/
theorem c7_template_invariance_witness :
    (splitCall (chars "x.template cast<T>(") false
        = (chars "x", chars "template " ++ chars "cast<T>(") ∧
      splitCall (chars "x.cast<T>(") false = (chars "x", chars "cast<T>(") ∧
      isPrefixB (chars "template ") (chars "cast<T>(") = false ∧
      trim (chars "cast<T>(") ≠ []) ∧
      check (chars "x.template cast<T>(") false false
        = check (chars "x.cast<T>(") false false :=
  ⟨⟨by decide, by decide, by decide, by decide⟩,
    c7_template_invariance (chars "x.template cast<T>(") (chars "x.cast<T>(")
      (chars "x") (chars "cast<T>(") false false (by decide) (by decide) (by decide)
      (by decide)⟩
